import Mathlib

/-!
Shallow embedding of `scripts/check-missing.py` (rosdep-with-aur).

The Python program reconciles the rosdep mapping database against Arch
Linux's official package set and the AUR: it validates existing `arch`
entries, guesses names by python-prefix substitution, and falls back to
querying repology.  Network and file I/O are modelled by explicit inputs
(an oracle for repology queries, a list of decoded lines for the AUR
snapshot); everything else is translated function by function.

String operations from Python (`startswith`, `endswith`, slicing) are
character based, so they are embedded on `String.data : List Char`.
-/

namespace CheckMissing

/-- Character-list prefix test (recursion on the pattern, so that it
reduces when only the pattern is a literal). -/
def listPrefix : List Char → List Char → Bool
  | [], _ => true
  | a :: as, l =>
      match l with
      | [] => false
      | b :: bs => a == b && listPrefix as bs

/-- Python `s.startswith(p)`: character-level prefix test. -/
def startswith (s p : String) : Bool :=
  listPrefix p.data s.data

/-- Python `s.endswith(p)`: character-level suffix test (a suffix is a
prefix of the reversal). -/
def endswith (s p : String) : Bool :=
  listPrefix p.data.reverse s.data.reverse

/-- One record of the repology `project-by` response, after `json.loads`:
the fields the script reads (`d['repo']`, `d['subrepo']`, `d['binname']`). -/
structure Hit where
  repo : String
  subrepo : String
  binname : String
deriving DecidableEq

/-- Outcome of one repology HTTP query (`urllib.request.urlopen` +
`json.loads`): a parsed hit list, a transport error (`URLError`), or a
parse error (`json.JSONDecodeError` on a malformed response body). -/
inductive QueryResult where
  | ok (data : List Hit)
  | urlError
  | jsonError
deriving DecidableEq

/-- The shapes a rosdep per-OS mapping value can take in the source data:
`null`, a flat list of package names, or a version-keyed mapping whose
values may themselves be null. -/
inductive MappingVal where
  | null
  | flat (pkgs : List String)
  | vers (entries : List (String × Option (List String)))
deriving DecidableEq

/-- The static `os_lut` table of `check_repology`, mapping rosdep os
names and versions to repology identifiers, verbatim from the source. -/
def os_lut : List (String × List (String × String)) :=
  [("debian",
    [("*", "debian_stable"),
     ("stretch", "debian_oldstable"),
     ("buster", "debian_stable")]),
   ("ubuntu",
    [("*", "ubuntu_20_04"),
     ("bionic", "ubuntu_18_04"),
     ("focal", "ubuntu_20_04"),
     ("trusty", "ubuntu_14_04"),
     ("xenial", "ubuntu_16_04")])]

/-- Python dict assignment `d[k] = v` on an insertion-ordered
association list: overwrite in place if the key is present, else append. -/
def insertKey : List (String × List String) → String → List String →
    List (String × List String)
  | [], k, v => [(k, v)]
  | (k', v') :: rest, k, v =>
      if k' = k then (k, v) :: rest else (k', v') :: insertKey rest k v

/-- Inner loop of `check_repology`'s normalization for a version-keyed
mapping value: `for osver in rosdep_mappings[os]: if osver in os_lut[os]
and rosdep_mappings[os][osver] is not None: foreign_hits[os_lut[os][osver]]
= rosdep_mappings[os][osver]`. -/
def addVers (fh : List (String × List String)) (vtbl : List (String × String)) :
    List (String × Option (List String)) → List (String × List String)
  | [] => fh
  | (osver, val) :: rest =>
      match vtbl.lookup osver, val with
      | some rid, some pkgs => addVers (insertKey fh rid pkgs) vtbl rest
      | _, _ => addVers fh vtbl rest

/-- The `foreign_hits` accumulation loop of `check_repology` (lines
94-102): translate each known OS of the rosdep mapping into repology
identifiers.  A flat list uses the OS's wildcard entry `os_lut[os]['*']`
(always present in the static table; an absent wildcard is modelled as a
skip). -/
def normAux (fh : List (String × List String)) :
    List (String × MappingVal) → List (String × List String)
  | [] => fh
  | (os, val) :: rest =>
      match os_lut.lookup os with
      | none => normAux fh rest
      | some vtbl =>
          match val with
          | .null => normAux fh rest
          | .flat pkgs =>
              match vtbl.lookup "*" with
              | some rid => normAux (insertKey fh rid pkgs) rest
              | none => normAux fh rest
          | .vers entries => normAux (addVers fh vtbl entries) rest

/-- `foreign_hits` as computed by `check_repology` from a rosdep mapping. -/
def normalize_mappings (m : List (String × MappingVal)) :
    List (String × List String) :=
  normAux [] m

/-- Whether `filter_hits` keeps a hit `h` for dependency key `key`: the
conjunction of the six suffix filters and the python-prefix filters of
the source. -/
def keepHit (key h : String) : Bool :=
  !(endswith h "-doc") && !(endswith h "-docs") && !(endswith h "-demos") &&
  !(endswith h "-git") && !(endswith h "-svn") && !(endswith h "-hg") &&
  (if startswith key "python-" then !(startswith h "python-")
   else if startswith key "python3-" then !(startswith h "python2-")
   else true)

/-- The nested `filter_hits` of `check_repology`, on the (unordered) hit
set. -/
def filter_hits (key : String) (hits : Finset String) : Finset String :=
  hits.filter (fun h => keepHit key h = true)

/-- `set([h['binname'] for h in repo_hits if h['subrepo'] == sub])`. -/
def subrepo_hits (rh : List Hit) (sub : String) : Finset String :=
  ((rh.filter (fun h => h.subrepo == sub)).map Hit.binname).toFinset

/-- The per-candidate query loop of `check_repology` (lines 107-118):
accumulate `repo_hits` (full `arch` records) and `aur_hits` (binnames of
`aur` records).  A transport error (`URLError`) is caught and the query
skipped; a parse error (`json.JSONDecodeError`) is not caught by the
`except urllib.request.URLError` / `except yaml.YAMLError` clauses and
propagates, modelled as `Except.error`. -/
def query_loop (oracle : String → String → QueryResult) (os : String) :
    List String → List Hit → List String → Except Unit (List Hit × List String)
  | [], rh, ah => .ok (rh, ah)
  | pkgname :: rest, rh, ah =>
      match oracle os pkgname with
      | .ok data =>
          query_loop oracle os rest
            (rh ++ data.filter (fun d => d.repo == "arch"))
            (ah ++ (data.filter (fun d => d.repo == "aur")).map Hit.binname)
      | .urlError => query_loop oracle os rest rh ah
      | .jsonError => .error ()

/-- The per-OS loop of `check_repology` (lines 104-135): query every
candidate, then return the first non-empty subchannel in the fixed order
core, extra, community, then the AUR hits; otherwise try the next OS.
Emptiness is tested on the raw hit sets (`len(core_hits) > 0`), before
`filter_hits` is applied. -/
def os_loop (key : String) (oracle : String → String → QueryResult) :
    List (String × List String) → Except Unit (Finset String)
  | [] => .ok ∅
  | (os, pkgs) :: rest =>
      match query_loop oracle os pkgs [] [] with
      | .error e => .error e
      | .ok (rh, ah) =>
          if 0 < (subrepo_hits rh "core").card then
            .ok (filter_hits key (subrepo_hits rh "core"))
          else if 0 < (subrepo_hits rh "extra").card then
            .ok (filter_hits key (subrepo_hits rh "extra"))
          else if 0 < (subrepo_hits rh "community").card then
            .ok (filter_hits key (subrepo_hits rh "community"))
          else if 0 < ah.length then
            .ok (filter_hits key ah.toFinset)
          else os_loop key oracle rest

/-- `check_repology(key, rosdep_mappings)`, with the network abstracted
as an oracle from (repology os identifier, candidate name) to a query
outcome.  `Except.error` is an uncaught exception escaping the function. -/
def check_repology (key : String) (m : List (String × MappingVal))
    (oracle : String → String → QueryResult) : Except Unit (Finset String) :=
  os_loop key oracle (normalize_mappings m)

/-- Python `line.strip()`: drop leading and trailing whitespace,
character-level. -/
def strip (s : String) : String :=
  ⟨((s.data.dropWhile Char.isWhitespace).reverse.dropWhile Char.isWhitespace).reverse⟩

/-- `list_aur_packages`, with the decoded lines of the decompressed
`packages.gz` snapshot as input:
`set([line.decode('utf-8').strip() for line in file.readlines()])`. -/
def list_aur_packages (lines : List String) : Finset String :=
  (lines.map strip).toFinset

/-- The four counters of `stats` in `main`:
`{"official": 0, "aur": 0, "repology": 0, "n/a": 0}`. -/
structure Stats where
  official : Nat
  aur : Nat
  repology : Nat
  na : Nat
deriving DecidableEq

/-- Sum of the four `stats` counters. -/
def statsSum (s : Stats) : Nat :=
  s.official + s.aur + s.repology + s.na

/-- The mutable state of a `main` run: the `stats` counters and the
`missing_keys` output dict (insertion ordered). -/
structure RunState where
  stats : Stats
  missing_keys : List (String × List String)
deriving DecidableEq

/-- `stats = {...: 0}; missing_keys = dict()` at the start of `main`. -/
def initState : RunState :=
  ⟨⟨0, 0, 0, 0⟩, []⟩

/-- The Validate step of `main` (lines 155-166): a key with an `arch`
entry is valid when all listed names are official packages, or else all
are AUR packages (Python `all`, vacuously true on an empty entry); a key
without an `arch` entry is not valid. -/
def keyIsValid (official aur : Finset String) (entry : Option (List String)) : Bool :=
  match entry with
  | some ps =>
      ps.all (fun p => decide (p ∈ official)) || ps.all (fun p => decide (p ∈ aur))
  | none => false

/-- The guess of `main` (lines 169-174).  Under the guard
`key.startswith('python-')`, Python `key.replace('python', 'python2', 1)`
rewrites the leftmost occurrence of `python`, which is at index 0, so it
equals `"python2"` followed by the characters of `key` from index 6 on;
analogously for the `python3-` branch with `replace('python3', 'python', 1)`. -/
def guessOf (key : String) : String :=
  if startswith key "python-" then ⟨"python2".data ++ key.data.drop 6⟩
  else if startswith key "python3-" then ⟨"python".data ++ key.data.drop 7⟩
  else key

/-- Processing of one rosdep key by `main` (lines 153-191): Validate,
then Guess against the official and AUR sets, then the repology tier.
`entry` is `rd_map[key]['arch']` when present; `pkgs` is
`list(check_repology(key, rd_map[key]))`, supplied as a parameter since
it depends on the network. -/
def processKey (official aur : Finset String) (key : String)
    (entry : Option (List String)) (pkgs : List String) (st : RunState) : RunState :=
  if keyIsValid official aur entry then st
  else if guessOf key ∈ official then
    ⟨{ st.stats with official := st.stats.official + 1 },
     insertKey st.missing_keys key [guessOf key]⟩
  else if guessOf key ∈ aur then
    ⟨{ st.stats with aur := st.stats.aur + 1 },
     insertKey st.missing_keys key [guessOf key]⟩
  else if 0 < pkgs.length then
    ⟨{ st.stats with repology := st.stats.repology + 1 },
     insertKey st.missing_keys key pkgs⟩
  else
    ⟨{ st.stats with na := st.stats.na + 1 },
     insertKey st.missing_keys key []⟩

/-- One mapping document, as consumed by `main`'s inner loop: for each
key, its optional `arch` entry and the repology result for the key's
mapping (the latter parameterizes the network). -/
abbrev Doc : Type :=
  List (String × Option (List String) × List String)

/-- `main`'s loop over the keys of one mapping document. -/
def processDoc (official aur : Finset String) (st : RunState) : Doc → RunState
  | [] => st
  | (key, entry, pkgs) :: rest =>
      processDoc official aur (processKey official aur key entry pkgs st) rest

/-- `main`'s outer loop over `["base.yaml", "python.yaml"]`: the two
documents are processed in sequence against the same name sets. -/
def runDocs (official aur : Finset String) (d1 d2 : Doc) : RunState :=
  processDoc official aur (processDoc official aur initState d1) d2

/-- The keys of a document that fail the Validate step (and hence reach
a fallback tier, increment a counter and write an output entry). -/
def invalidKeys (official aur : Finset String) (d : Doc) : Finset String :=
  ((d.filter (fun it => !(keyIsValid official aur it.2.1))).map (fun it => it.1)).toFinset

/-- The key set of an output dict. -/
def keysFinset (mk : List (String × List String)) : Finset String :=
  (mk.map Prod.fst).toFinset

/-! ## Concrete inputs used to instantiate the theorems -/

/-- An oracle whose every query returns a response body that is not
valid JSON (`json.loads` raises). -/
def oraJson : String → String → QueryResult := fun _ _ => .jsonError

/-- An oracle whose every query fails at the transport level
(`urllib.request.urlopen` raises `URLError`). -/
def oraUrl : String → String → QueryResult := fun _ _ => .urlError

/-- A one-OS flat rosdep mapping, `{debian: [p]}`. -/
def m0 : List (String × MappingVal) := [("debian", .flat ["p"])]

/-- An oracle always answering with one official `core` hit `bar`. -/
def ora1 : String → String → QueryResult := fun _ _ => .ok [⟨"arch", "core", "bar"⟩]

/-- A response with a `core` hit that the suffix filter drops and an
`extra` hit that survives filtering. -/
def hits2 : List Hit := [⟨"arch", "core", "foo-doc"⟩, ⟨"arch", "extra", "bar"⟩]

/-- An oracle always answering with `hits2`. -/
def ora2 : String → String → QueryResult := fun _ _ => .ok hits2

/-! ## Helper lemmas -/

theorem listPrefix_iff (p l : List Char) : listPrefix p l = true ↔ p <+: l := by
  induction p generalizing l with
  | nil => simp [listPrefix]
  | cons a as ih =>
      cases l with
      | nil =>
          rw [show listPrefix (a :: as) [] = false from rfl]
          simp
      | cons b bs =>
          rw [show listPrefix (a :: as) (b :: bs) = (a == b && listPrefix as bs) from rfl]
          simp [ih, List.cons_prefix_cons]

theorem not_python_both (key : String) (h1 : startswith key "python-" = true)
    (h2 : startswith key "python3-" = true) : False := by
  rw [startswith, listPrefix_iff] at h1 h2
  rcases List.prefix_or_prefix_of_prefix h1 h2 with h | h
  · exact absurd h (by decide)
  · exact absurd h (by decide)

/-- Every set returned by the per-OS loop passed through `filter_hits`,
so each member satisfies `keepHit`. -/
theorem os_loop_keepHit (key : String) (ora : String → String → QueryResult) :
    ∀ (fh : List (String × List String)) (s : Finset String) (name : String),
      os_loop key ora fh = .ok s → name ∈ s → keepHit key name = true := by
  intro fh
  induction fh with
  | nil =>
      intro s name h hn
      rw [show os_loop key ora [] = .ok ∅ from rfl] at h
      cases h
      simp at hn
  | cons p rest ih =>
      obtain ⟨os, pkgs⟩ := p
      intro s name h hn
      rw [os_loop] at h
      cases hq : query_loop ora os pkgs [] [] with
      | error e => rw [hq] at h; cases h
      | ok pr =>
          obtain ⟨rh, ah⟩ := pr
          rw [hq] at h
          simp only at h
          split_ifs at h with hc he hco hau
          · cases h
            exact (Finset.mem_filter.mp hn).2
          · cases h
            exact (Finset.mem_filter.mp hn).2
          · cases h
            exact (Finset.mem_filter.mp hn).2
          · cases h
            exact (Finset.mem_filter.mp hn).2
          · exact ih s name h hn

theorem insertKey_keysFinset (mk : List (String × List String)) (k : String)
    (v : List String) : keysFinset (insertKey mk k v) = insert k (keysFinset mk) := by
  induction mk with
  | nil => simp [insertKey, keysFinset]
  | cons p rest ih =>
      obtain ⟨k', v'⟩ := p
      rw [insertKey]
      split_ifs with h
      · subst h
        simp [keysFinset]
      · simp only [keysFinset, List.map_cons, List.toFinset_cons] at ih ⊢
        rw [ih, Finset.Insert.comm]

theorem insertKey_mem_keys (mk : List (String × List String)) (k : String)
    (v : List String) (x : String) :
    x ∈ (insertKey mk k v).map Prod.fst ↔ x = k ∨ x ∈ mk.map Prod.fst := by
  have h := insertKey_keysFinset mk k v
  rw [keysFinset, keysFinset] at h
  rw [← List.mem_toFinset, h, Finset.mem_insert, List.mem_toFinset]

theorem insertKey_nodup (mk : List (String × List String)) (k : String)
    (v : List String) (h : (mk.map Prod.fst).Nodup) :
    ((insertKey mk k v).map Prod.fst).Nodup := by
  induction mk with
  | nil => simp [insertKey]
  | cons p rest ih =>
      obtain ⟨k', v'⟩ := p
      rw [List.map_cons, List.nodup_cons] at h
      rw [insertKey]
      split_ifs with hk
      · subst hk
        rw [List.map_cons, List.nodup_cons]
        exact h
      · rw [List.map_cons, List.nodup_cons]
        refine ⟨fun hm => ?_, ih h.2⟩
        rcases (insertKey_mem_keys rest k v k').mp hm with h1 | h1
        · exact hk h1
        · exact h.1 h1

theorem insertKey_lookup_self (mk : List (String × List String)) (k : String)
    (v : List String) : (insertKey mk k v).lookup k = some v := by
  induction mk with
  | nil => simp [insertKey]
  | cons p rest ih =>
      obtain ⟨k', v'⟩ := p
      rw [insertKey]
      split_ifs with h
      · simp
      · rw [List.lookup_cons]
        have hb : (k == k') = false :=
          beq_eq_false_iff_ne.mpr (fun hh => h hh.symm)
        rw [hb]
        exact ih

theorem insertKey_lookup_ne (mk : List (String × List String)) (k : String)
    (v : List String) (k' : String) (h : k' ≠ k) :
    (insertKey mk k v).lookup k' = mk.lookup k' := by
  induction mk with
  | nil =>
      rw [insertKey, List.lookup_cons]
      have hb : (k' == k) = false := beq_eq_false_iff_ne.mpr h
      rw [hb]
  | cons p rest ih =>
      obtain ⟨k'', v''⟩ := p
      rw [insertKey]
      split_ifs with hk
      · subst hk
        rw [List.lookup_cons, List.lookup_cons]
        have hb : (k' == k'') = false := beq_eq_false_iff_ne.mpr h
        rw [hb]
      · rw [List.lookup_cons, List.lookup_cons]
        cases hx : (k' == k'') with
        | true => rfl
        | false => exact ih

/-- One key adds one to the counter sum exactly when it is invalid. -/
theorem processKey_statsSum (o a : Finset String) (key : String)
    (entry : Option (List String)) (pkgs : List String) (st : RunState) :
    statsSum (processKey o a key entry pkgs st).stats =
      statsSum st.stats + (if keyIsValid o a entry then 0 else 1) := by
  rw [processKey]
  split_ifs with h1 h2 h3 h4 <;> simp [statsSum] <;> omega

/-- One key inserts its own key into the output dict exactly when it is
invalid. -/
theorem processKey_keysFinset (o a : Finset String) (key : String)
    (entry : Option (List String)) (pkgs : List String) (st : RunState) :
    keysFinset (processKey o a key entry pkgs st).missing_keys =
      if keyIsValid o a entry then keysFinset st.missing_keys
      else insert key (keysFinset st.missing_keys) := by
  rw [processKey]
  split_ifs with h1 h2 h3 h4 <;> simp [insertKey_keysFinset]

theorem processKey_nodup (o a : Finset String) (key : String)
    (entry : Option (List String)) (pkgs : List String) (st : RunState)
    (h : (st.missing_keys.map Prod.fst).Nodup) :
    ((processKey o a key entry pkgs st).missing_keys.map Prod.fst).Nodup := by
  rw [processKey]
  split_ifs with h1 h2 h3 h4 <;> first | exact h | exact insertKey_nodup _ _ _ h

theorem processDoc_statsSum (o a : Finset String) (d : Doc) :
    ∀ st : RunState, statsSum (processDoc o a st d).stats =
      statsSum st.stats + (d.filter (fun it => !(keyIsValid o a it.2.1))).length := by
  induction d with
  | nil => intro st; simp [processDoc]
  | cons it rest ih =>
      intro st
      obtain ⟨key, entry, pkgs⟩ := it
      rw [show processDoc o a st ((key, entry, pkgs) :: rest) =
            processDoc o a (processKey o a key entry pkgs st) rest from rfl]
      rw [ih, processKey_statsSum, List.filter_cons]
      by_cases hv : keyIsValid o a entry
      · simp [hv]
      · simp only [hv]
        simp
        omega

theorem processDoc_keysFinset (o a : Finset String) (d : Doc) :
    ∀ st : RunState, keysFinset (processDoc o a st d).missing_keys =
      keysFinset st.missing_keys ∪ invalidKeys o a d := by
  induction d with
  | nil => intro st; simp [processDoc, invalidKeys]
  | cons it rest ih =>
      intro st
      obtain ⟨key, entry, pkgs⟩ := it
      rw [show processDoc o a st ((key, entry, pkgs) :: rest) =
            processDoc o a (processKey o a key entry pkgs st) rest from rfl]
      rw [ih, processKey_keysFinset]
      by_cases hv : keyIsValid o a entry
      · have : invalidKeys o a ((key, entry, pkgs) :: rest) = invalidKeys o a rest := by
          simp [invalidKeys, List.filter_cons, hv]
        rw [this, if_pos hv]
      · have : invalidKeys o a ((key, entry, pkgs) :: rest) =
            insert key (invalidKeys o a rest) := by
          simp [invalidKeys, List.filter_cons, hv]
        rw [this, if_neg hv, Finset.insert_union, Finset.union_insert]

theorem processDoc_nodup (o a : Finset String) (d : Doc) :
    ∀ st : RunState, (st.missing_keys.map Prod.fst).Nodup →
      ((processDoc o a st d).missing_keys.map Prod.fst).Nodup := by
  induction d with
  | nil => intro st h; exact h
  | cons it rest ih =>
      intro st h
      obtain ⟨key, entry, pkgs⟩ := it
      exact ih _ (processKey_nodup o a key entry pkgs st h)

/-- With per-document unique keys, the number of invalid items of a
document equals the size of its invalid key set. -/
theorem invalidKeys_card (o a : Finset String) (d : Doc)
    (h : (d.map (fun it => it.1)).Nodup) :
    (invalidKeys o a d).card =
      (d.filter (fun it => !(keyIsValid o a it.2.1))).length := by
  have hsub : ((d.filter (fun it => !(keyIsValid o a it.2.1))).map
      (fun it => it.1)).Nodup :=
    h.sublist ((List.filter_sublist d).map (fun it => it.1))
  rw [invalidKeys, List.toFinset_card_of_nodup hsub, List.length_map]

/-! ## Claims -/

/-- C1: contrary to the claim, a parse failure of a cross-reference
response is NOT contained in the resolver.  The `try` block only catches
`urllib.request.URLError` and `yaml.YAMLError`, but the parser is
`json.loads`, which raises `json.JSONDecodeError`: on a malformed
response body the exception propagates out of `check_repology` (first
conjunct), while a transport error is indeed caught and the query merely
contributes zero hits (second conjunct). -/
theorem c1_parse_error_escapes :
    check_repology "k" m0 oraJson = .error () ∧
    check_repology "k" m0 oraUrl = .ok ∅ :=
  ⟨rfl, rfl⟩

/-- C3 counterexample: a key whose `arch` entry is the empty list is
treated as already valid (Python `all([])` is `True`), not as
invalid/missing: even with the guess (`k` itself) present in the
official set, the run state is left unchanged instead of resolving the
key at the Guess tier. -/
theorem c3_counterexample :
    keyIsValid {"k"} ∅ (some []) = true ∧
    processKey {"k"} ∅ "k" (some []) [] initState = initState := by
  constructor
  · decide
  · rfl

/-- C3 (amended): a DependencyKey is marked already valid exactly when
it has a target-distribution entry all of whose names are in the
official set, or else all in the community set — vacuously including
the empty entry, which is therefore treated as valid, does not proceed
to the Guess tier, and leaves the run state unchanged. -/
theorem c3_empty_entry_valid (o a : Finset String) (ps : List String) :
    (keyIsValid o a (some ps) = true ↔
      (∀ p ∈ ps, p ∈ o) ∨ (∀ p ∈ ps, p ∈ a)) ∧
    keyIsValid o a none = false ∧
    (∀ (key : String) (pkgs : List String) (st : RunState),
      processKey o a key (some []) pkgs st = st) := by
  refine ⟨?_, rfl, fun key pkgs st => rfl⟩
  simp [keyIsValid, List.all_eq_true]

/-- C3 witness: instantiating the amended statement — a concrete key
with an empty entry is left untouched. -/
theorem c3_empty_entry_valid_witness :
    processKey ∅ ∅ "z" (some []) [] initState = initState :=
  (c3_empty_entry_valid ∅ ∅ []).2.2 "z" [] initState

/-- C4 counterexample: a version-keyed entry whose version string is
absent from the translation table contributes nothing — there is no
fallback to the OS wildcard.  `{debian: {jessie: [foo]}}` normalizes to
the empty candidate list and the resolver returns no hits even under an
oracle that answers every query with an official `core` hit, whereas
the same candidates as a flat list are translated via the wildcard and
do produce a result. -/
theorem c4_counterexample :
    normalize_mappings [("debian", .vers [("jessie", some ["foo"])])] = [] ∧
    normalize_mappings [("debian", .flat ["foo"])] = [("debian_stable", ["foo"])] ∧
    check_repology "k" [("debian", .vers [("jessie", some ["foo"])])] ora1 = .ok ∅ ∧
    check_repology "k" [("debian", .flat ["foo"])] ora1 =
      .ok (filter_hits "k" (["bar"].toFinset)) :=
  ⟨rfl, rfl, rfl, rfl⟩

/-- C4 (amended): for a version-keyed DistroMapping entry, the
translation uses only the version-specific table entry: if the version
string is found in the OS's table the pair contributes its candidates
under that identifier, and otherwise the pair is skipped (the OS-level
wildcard is not consulted for version-keyed entries). -/
theorem c4_version_lookup (os osver : String) (pkgs : List String)
    (vtbl : List (String × String)) (h : os_lut.lookup os = some vtbl) :
    (vtbl.lookup osver = none →
      normalize_mappings [(os, .vers [(osver, some pkgs)])] = []) ∧
    (∀ rid : String, vtbl.lookup osver = some rid →
      normalize_mappings [(os, .vers [(osver, some pkgs)])] = [(rid, pkgs)]) := by
  constructor
  · intro hn
    simp [normalize_mappings, normAux, h, addVers, hn]
  · intro rid hr
    simp [normalize_mappings, normAux, h, addVers, hr, insertKey]

/-- C4 witness: instantiating the amended statement at
`{debian: {jessie: [foo]}}` (where `jessie` is missing from the
table). -/
theorem c4_version_lookup_witness :
    normalize_mappings [("debian", .vers [("jessie", some ["foo"])])] = [] :=
  (c4_version_lookup "debian" "jessie" ["foo"]
    [("*", "debian_stable"), ("stretch", "debian_oldstable"),
     ("buster", "debian_stable")] rfl).1 rfl

/-- C5 counterexample: a blank line in the snapshot contributes the
empty string to the AUR package set — empty lines are not filtered
out before the set is built. -/
theorem c5_counterexample :
    ("" : String) ∈ list_aur_packages ["foo\n", "\n"] := by
  decide

/-- C5 (amended): the Secondary Repository Loader's output set is
exactly the set of stripped lines of the snapshot: the stripped form of
every line (non-empty or not) is a member, and the set contains the
empty string exactly when some line strips to the empty string. -/
theorem c5_stripped_lines (lines : List String) :
    (∀ l ∈ lines, strip l ∈ list_aur_packages lines) ∧
    ("" ∈ list_aur_packages lines ↔ ∃ l ∈ lines, strip l = "") := by
  constructor
  · intro l hl
    rw [list_aur_packages, List.mem_toFinset, List.mem_map]
    exact ⟨l, hl, rfl⟩
  · rw [list_aur_packages, List.mem_toFinset, List.mem_map]

/-- C5 witness: instantiating the amended statement on a concrete
snapshot with a blank line. -/
theorem c5_stripped_lines_witness :
    strip "foo\n" ∈ list_aur_packages ["foo\n", "\n"] :=
  (c5_stripped_lines ["foo\n", "\n"]).1 "foo\n" (by decide)

/-- C6: for the OS identifier that determines the result (the first in
normalization order), the subchannels are tried in the fixed priority
order core, extra, community, then the AUR fallback, on the raw
(pre-filter) hit sets; in particular when core hits exist the result is
the filtered core hits, regardless of the contents of the extra hits. -/
theorem c6_tiebreak (key : String) (ora : String → String → QueryResult)
    (m : List (String × MappingVal)) (os : String) (pkgs : List String)
    (rest : List (String × List String)) (rh : List Hit) (ah : List String)
    (hm : normalize_mappings m = (os, pkgs) :: rest)
    (hq : query_loop ora os pkgs [] [] = .ok (rh, ah)) :
    (0 < (subrepo_hits rh "core").card →
      check_repology key m ora = .ok (filter_hits key (subrepo_hits rh "core"))) ∧
    ((subrepo_hits rh "core").card = 0 → 0 < (subrepo_hits rh "extra").card →
      check_repology key m ora = .ok (filter_hits key (subrepo_hits rh "extra"))) ∧
    ((subrepo_hits rh "core").card = 0 → (subrepo_hits rh "extra").card = 0 →
      0 < (subrepo_hits rh "community").card →
      check_repology key m ora = .ok (filter_hits key (subrepo_hits rh "community"))) ∧
    ((subrepo_hits rh "core").card = 0 → (subrepo_hits rh "extra").card = 0 →
      (subrepo_hits rh "community").card = 0 → 0 < ah.length →
      check_repology key m ora = .ok (filter_hits key ah.toFinset)) := by
  refine ⟨?_, ?_, ?_, ?_⟩
  · intro h1
    rw [check_repology, hm, os_loop, hq]
    simp only
    rw [if_pos h1]
  · intro h0 h1
    rw [check_repology, hm, os_loop, hq]
    simp only
    rw [if_neg (by omega), if_pos h1]
  · intro h0 h0' h1
    rw [check_repology, hm, os_loop, hq]
    simp only
    rw [if_neg (by omega), if_neg (by omega), if_pos h1]
  · intro h0 h0' h0'' h1
    rw [check_repology, hm, os_loop, hq]
    simp only
    rw [if_neg (by omega), if_neg (by omega), if_neg (by omega), if_pos h1]

/-- C6 witness: with a response holding both a core hit (`foo-doc`) and
an extra hit (`bar`), the resolver returns exactly the filtered core
hits. -/
theorem c6_tiebreak_witness :
    check_repology "k" m0 ora2 = .ok (filter_hits "k" (subrepo_hits hits2 "core")) :=
  (c6_tiebreak "k" ora2 m0 "debian_stable" ["p"] [] hits2 [] rfl rfl).1 (by decide)

/-- C2 counterexample: the per-tier emptiness test happens before
filtering, so an OS identifier whose core hits are all removed by
`filter_hits` still wins and yields an empty result, even though the
same OS identifier has a post-filter hit (`bar`) at the extra tier — so
an input with a post-filter hit at some tier can still produce an empty
output, and the OS/tier is not skipped. -/
theorem c2_counterexample :
    check_repology "k" m0 ora2 = .ok ∅ ∧
    "bar" ∈ subrepo_hits hits2 "extra" ∧
    keepHit "k" "bar" = true :=
  ⟨rfl, by decide, by decide⟩

/-- C2 (amended): the resolver's output is non-empty for every input
where the first tier (in priority order, for the OS identifier being
processed) with any pre-filter hits retains at least one hit after
filtering; an OS identifier with no pre-filter hits at any tier
contributes nothing and the search proceeds to the next OS
identifier. -/
theorem c2_first_tier (key : String) (ora : String → String → QueryResult)
    (m : List (String × MappingVal)) (os : String) (pkgs : List String)
    (rest : List (String × List String)) (rh : List Hit) (ah : List String)
    (hm : normalize_mappings m = (os, pkgs) :: rest)
    (hq : query_loop ora os pkgs [] [] = .ok (rh, ah)) :
    (0 < (subrepo_hits rh "core").card →
      (filter_hits key (subrepo_hits rh "core")).Nonempty →
      ∃ s, check_repology key m ora = .ok s ∧ s.Nonempty) ∧
    ((subrepo_hits rh "core").card = 0 → 0 < (subrepo_hits rh "extra").card →
      (filter_hits key (subrepo_hits rh "extra")).Nonempty →
      ∃ s, check_repology key m ora = .ok s ∧ s.Nonempty) ∧
    ((subrepo_hits rh "core").card = 0 → (subrepo_hits rh "extra").card = 0 →
      0 < (subrepo_hits rh "community").card →
      (filter_hits key (subrepo_hits rh "community")).Nonempty →
      ∃ s, check_repology key m ora = .ok s ∧ s.Nonempty) ∧
    ((subrepo_hits rh "core").card = 0 → (subrepo_hits rh "extra").card = 0 →
      (subrepo_hits rh "community").card = 0 → 0 < ah.length →
      (filter_hits key ah.toFinset).Nonempty →
      ∃ s, check_repology key m ora = .ok s ∧ s.Nonempty) ∧
    ((subrepo_hits rh "core").card = 0 → (subrepo_hits rh "extra").card = 0 →
      (subrepo_hits rh "community").card = 0 → ah.length = 0 →
      check_repology key m ora = os_loop key ora rest) := by
  refine ⟨?_, ?_, ?_, ?_, ?_⟩
  · intro h1 hf
    refine ⟨filter_hits key (subrepo_hits rh "core"), ?_, hf⟩
    rw [check_repology, hm, os_loop, hq]
    simp only
    rw [if_pos h1]
  · intro h0 h1 hf
    refine ⟨filter_hits key (subrepo_hits rh "extra"), ?_, hf⟩
    rw [check_repology, hm, os_loop, hq]
    simp only
    rw [if_neg (by omega), if_pos h1]
  · intro h0 h0' h1 hf
    refine ⟨filter_hits key (subrepo_hits rh "community"), ?_, hf⟩
    rw [check_repology, hm, os_loop, hq]
    simp only
    rw [if_neg (by omega), if_neg (by omega), if_pos h1]
  · intro h0 h0' h0'' h1 hf
    refine ⟨filter_hits key ah.toFinset, ?_, hf⟩
    rw [check_repology, hm, os_loop, hq]
    simp only
    rw [if_neg (by omega), if_neg (by omega), if_neg (by omega), if_pos h1]
  · intro h0 h0' h0'' h1
    rw [check_repology, hm, os_loop, hq]
    simp only
    rw [if_neg (by omega), if_neg (by omega), if_neg (by omega),
      if_neg (by omega)]

/-- C2 witness: with one surviving core hit the resolver's output is
non-empty. -/
theorem c2_first_tier_witness :
    ∃ s, check_repology "k" m0 ora1 = .ok s ∧ s.Nonempty :=
  (c2_first_tier "k" ora1 m0 "debian_stable" ["p"] []
    [⟨"arch", "core", "bar"⟩] [] rfl rfl).1 (by decide) (by decide)

/-- C7: every name in a successful resolver output satisfies the
filtering law: none of the six non-runtime suffixes, no `python-`
result for a `python-` key, and no `python2-` result for a `python3-`
key. -/
theorem c7_no_filtered_suffix (key : String) (m : List (String × MappingVal))
    (ora : String → String → QueryResult) (s : Finset String) (name : String)
    (h : check_repology key m ora = .ok s) (hn : name ∈ s) :
    endswith name "-doc" = false ∧ endswith name "-docs" = false ∧
    endswith name "-demos" = false ∧ endswith name "-git" = false ∧
    endswith name "-svn" = false ∧ endswith name "-hg" = false ∧
    (startswith key "python-" = true → startswith name "python-" = false) ∧
    (startswith key "python3-" = true → startswith name "python2-" = false) := by
  have hk : keepHit key name = true :=
    os_loop_keepHit key ora (normalize_mappings m) s name h hn
  rw [keepHit] at hk
  simp only [Bool.and_eq_true, Bool.not_eq_true'] at hk
  obtain ⟨⟨⟨⟨⟨⟨h1, h2⟩, h3⟩, h4⟩, h5⟩, h6⟩, h7⟩ := hk
  refine ⟨h1, h2, h3, h4, h5, h6, ?_, ?_⟩
  · intro hp
    rw [if_pos hp] at h7
    simpa using h7
  · intro hp3
    by_cases hps : startswith key "python-" = true
    · exact (not_python_both key hps hp3).elim
    · rw [if_neg hps, if_pos hp3] at h7
      simpa using h7

/-- C7 witness: instantiated on a concrete resolver run returning
`bar`. -/
theorem c7_no_filtered_suffix_witness :
    endswith "bar" "-doc" = false ∧ endswith "bar" "-docs" = false ∧
    endswith "bar" "-demos" = false ∧ endswith "bar" "-git" = false ∧
    endswith "bar" "-svn" = false ∧ endswith "bar" "-hg" = false ∧
    (startswith "k" "python-" = true → startswith "bar" "python-" = false) ∧
    (startswith "k" "python3-" = true → startswith "bar" "python2-" = false) :=
  c7_no_filtered_suffix "k" m0 ora1 (filter_hits "k" (["bar"].toFinset)) "bar"
    rfl (by decide)

/-- C8: for an invalid/missing key, the guess replaces a `python-`
prefix by `python2-`, a `python3-` prefix by `python-`, and otherwise
is the key unchanged; a guess found in the official set resolves the
key with output entry `[guess]` and bumps the official counter, else a
guess found in the community set resolves it likewise and bumps the
AUR counter. -/
theorem c8_guess_tier (o a : Finset String) (key : String)
    (entry : Option (List String)) (pkgs : List String) (st : RunState)
    (hinv : keyIsValid o a entry = false) :
    (∀ t : String, guessOf ("python-" ++ t) = "python2-" ++ t) ∧
    (∀ t : String, guessOf ("python3-" ++ t) = "python-" ++ t) ∧
    (startswith key "python-" = false → startswith key "python3-" = false →
      guessOf key = key) ∧
    (guessOf key ∈ o →
      processKey o a key entry pkgs st =
        ⟨{ st.stats with official := st.stats.official + 1 },
         insertKey st.missing_keys key [guessOf key]⟩) ∧
    (guessOf key ∉ o → guessOf key ∈ a →
      processKey o a key entry pkgs st =
        ⟨{ st.stats with aur := st.stats.aur + 1 },
         insertKey st.missing_keys key [guessOf key]⟩) := by
  refine ⟨fun t => rfl, fun t => rfl, ?_, ?_, ?_⟩
  · intro hp1 hp3
    rw [guessOf, if_neg (by simp [hp1]), if_neg (by simp [hp3])]
  · intro hg
    rw [processKey, if_neg (by simp [hinv]), if_pos hg]
  · intro hg hg2
    rw [processKey, if_neg (by simp [hinv]), if_neg hg, if_pos hg2]

/-- C8 witness: the `boost` scenario — key `boost` without an entry,
guess `boost` in the official set, resolved with entry
`{boost: {arch: [boost]}}` and the official counter incremented. -/
theorem c8_guess_tier_witness :
    processKey {"boost"} ∅ "boost" none [] initState =
      ⟨⟨1, 0, 0, 0⟩, [("boost", ["boost"])]⟩ :=
  (c8_guess_tier {"boost"} ∅ "boost" none [] initState rfl).2.2.2.1 (by decide)

/-- C9: a key that is already valid at the Validate step leaves the run
state unchanged (no output entry, no counter); an invalid key
increments the counter sum by exactly one (each counter only ever
grows) and writes exactly one output entry — its own key — leaving
every other key's entry untouched. -/
theorem c9_frame (o a : Finset String) (key : String)
    (entry : Option (List String)) (pkgs : List String) (st : RunState) :
    (keyIsValid o a entry = true → processKey o a key entry pkgs st = st) ∧
    (keyIsValid o a entry = false →
      statsSum (processKey o a key entry pkgs st).stats = statsSum st.stats + 1 ∧
      st.stats.official ≤ (processKey o a key entry pkgs st).stats.official ∧
      st.stats.aur ≤ (processKey o a key entry pkgs st).stats.aur ∧
      st.stats.repology ≤ (processKey o a key entry pkgs st).stats.repology ∧
      st.stats.na ≤ (processKey o a key entry pkgs st).stats.na ∧
      ∃ v, (processKey o a key entry pkgs st).missing_keys =
          insertKey st.missing_keys key v ∧
        (processKey o a key entry pkgs st).missing_keys.lookup key = some v ∧
        ∀ k', k' ≠ key →
          (processKey o a key entry pkgs st).missing_keys.lookup k' =
            st.missing_keys.lookup k') := by
  constructor
  · intro hv
    rw [processKey, if_pos hv]
  · intro hinv
    rw [processKey, if_neg (by simp [hinv])]
    split_ifs with hg1 hg2 hg3
    · exact ⟨by simp only [statsSum]; omega, by simp, by simp, by simp, by simp,
        [guessOf key], rfl, insertKey_lookup_self _ _ _,
        fun k' hk' => insertKey_lookup_ne _ _ _ _ hk'⟩
    · exact ⟨by simp only [statsSum]; omega, by simp, by simp, by simp, by simp,
        [guessOf key], rfl, insertKey_lookup_self _ _ _,
        fun k' hk' => insertKey_lookup_ne _ _ _ _ hk'⟩
    · exact ⟨by simp only [statsSum]; omega, by simp, by simp, by simp, by simp,
        pkgs, rfl, insertKey_lookup_self _ _ _,
        fun k' hk' => insertKey_lookup_ne _ _ _ _ hk'⟩
    · exact ⟨by simp only [statsSum]; omega, by simp, by simp, by simp, by simp,
        [], rfl, insertKey_lookup_self _ _ _,
        fun k' hk' => insertKey_lookup_ne _ _ _ _ hk'⟩

/-- C9 witness: one invalid key adds exactly one to the counter sum. -/
theorem c9_frame_witness :
    statsSum (processKey ∅ ∅ "k" none [] initState).stats =
      statsSum initState.stats + 1 :=
  ((c9_frame ∅ ∅ "k" none [] initState).2 rfl).1

/-- C10: with keys unique within each document (but shared across the
two), every invalid key of a document increments a counter on its pass
and (re)writes its output entry, so the counter sum equals the number
of output entries plus the number of keys invalid in both documents;
hence the sum is at least the entry count, with equality exactly when
no key is invalid in both documents. -/
theorem c10_two_documents (o a : Finset String) (d1 d2 : Doc)
    (h1 : (d1.map (fun it => it.1)).Nodup)
    (h2 : (d2.map (fun it => it.1)).Nodup) :
    (∀ (k : String) (d : Doc), k ∈ invalidKeys o a d ↔
      ∃ e p, (k, e, p) ∈ d ∧ keyIsValid o a e = false) ∧
    statsSum (runDocs o a d1 d2).stats =
      (runDocs o a d1 d2).missing_keys.length +
        (invalidKeys o a d1 ∩ invalidKeys o a d2).card ∧
    (runDocs o a d1 d2).missing_keys.length ≤
      statsSum (runDocs o a d1 d2).stats ∧
    (statsSum (runDocs o a d1 d2).stats =
        (runDocs o a d1 d2).missing_keys.length ↔
      invalidKeys o a d1 ∩ invalidKeys o a d2 = ∅) := by
  have hmem : ∀ (k : String) (d : Doc), k ∈ invalidKeys o a d ↔
      ∃ e p, (k, e, p) ∈ d ∧ keyIsValid o a e = false := by
    intro k d
    rw [invalidKeys, List.mem_toFinset, List.mem_map]
    constructor
    · rintro ⟨⟨k', e, p⟩, hm, rfl⟩
      rw [List.mem_filter] at hm
      exact ⟨e, p, hm.1, by simpa using hm.2⟩
    · rintro ⟨e, p, hm, hv⟩
      exact ⟨(k, e, p), List.mem_filter.mpr ⟨hm, by simp [hv]⟩, rfl⟩
  have hsum : statsSum (runDocs o a d1 d2).stats =
      (d1.filter (fun it => !(keyIsValid o a it.2.1))).length +
      (d2.filter (fun it => !(keyIsValid o a it.2.1))).length := by
    rw [runDocs, processDoc_statsSum, processDoc_statsSum]
    simp only [initState, statsSum]
    omega
  have hnodup : ((runDocs o a d1 d2).missing_keys.map Prod.fst).Nodup := by
    rw [runDocs]
    exact processDoc_nodup o a d2 _
      (processDoc_nodup o a d1 initState (by simp [initState]))
  have hkeys : keysFinset (runDocs o a d1 d2).missing_keys =
      invalidKeys o a d1 ∪ invalidKeys o a d2 := by
    rw [runDocs, processDoc_keysFinset, processDoc_keysFinset]
    simp [initState, keysFinset, Finset.union_assoc]
  have hlen : (runDocs o a d1 d2).missing_keys.length =
      (invalidKeys o a d1 ∪ invalidKeys o a d2).card := by
    rw [← hkeys, keysFinset, List.toFinset_card_of_nodup hnodup, List.length_map]
  have hcard := Finset.card_union_add_card_inter
    (invalidKeys o a d1) (invalidKeys o a d2)
  have hc1 := invalidKeys_card o a d1 h1
  have hc2 := invalidKeys_card o a d2 h2
  refine ⟨hmem, by omega, by omega, ?_⟩
  constructor
  · intro he
    have hz : (invalidKeys o a d1 ∩ invalidKeys o a d2).card = 0 := by omega
    exact Finset.card_eq_zero.mp hz
  · intro he
    have hz : (invalidKeys o a d1 ∩ invalidKeys o a d2).card = 0 := by
      rw [he]
      exact Finset.card_empty
    omega

/-- C10 witness: a key invalid in both documents is counted twice but
stored once. -/
theorem c10_two_documents_witness :
    statsSum (runDocs ∅ ∅ [("x", none, [])] [("x", none, [])]).stats =
      (runDocs ∅ ∅ [("x", none, [])] [("x", none, [])]).missing_keys.length +
        (invalidKeys ∅ ∅ [("x", none, [])] ∩
          invalidKeys ∅ ∅ [("x", none, [])]).card :=
  (c10_two_documents ∅ ∅ [("x", none, [])] [("x", none, [])]
    (by decide) (by decide)).2.1

end CheckMissing
